import Mathlib

/-!
Verification of the power-line loss pipeline of `scratch/powerline_loss_test.py`.

The script synthesizes a landscape (`build_forest_asc`, `build_data_csv`),
builds a per-cell value map (`build_powerline_values`), runs the external
Cell2Fire simulator, locates each replicate's terminal burn grid
(`get_last_forest_grid_for_sim`) and aggregates losses (`evaluate_losses`).

Modelling conventions:
* numpy 2-D arrays are lists of rows over `ℚ` (the numeric values involved —
  1.0, 100.0 and their small sums and quotients — are exact in floating point,
  so exact rational arithmetic is faithful);
* numpy errors (`IndexError` from out-of-range or mismatched indexing,
  `ValueError` from `np.max` on an empty sequence) are `Option.none`;
* text files are lists of lines, a line being a `List Char`;
* the filesystem directory listing consumed by `get_last_forest_grid_for_sim`
  is passed in as the list of matching file names.
-/

namespace PowerlineLoss

/-- A numpy 2-D numeric array: a list of rows. -/
abbrev Grid := List (List ℚ)

/-- The numpy shape `(nrows, ncols)` of a (rectangular) array. -/
def shape (g : Grid) : Nat × Nat := (g.length, (g.headD []).length)

/-- Python `(ncols // 2) - 1`: the power-line column index.  For `ncols ≤ 1`
this is negative (Python/numpy then index from the end). -/
def powerline_col_index (ncols : Nat) : Int := (ncols : Int) / 2 - 1

/-- numpy index resolution on an axis of length `len`: a negative index counts
from the end; an index still out of range is an `IndexError` (`none`). -/
def npIndex (len : Nat) (i : Int) : Option Nat :=
  let j := if i < 0 then i + len else i
  if 0 ≤ j ∧ j < (len : Int) then some j.toNat else none

/-- Map a fallible function over a list, failing as soon as it fails. -/
def mapOpt {α β : Type} (f : α → Option β) : List α → Option (List β)
  | [] => some []
  | a :: l => do
    let b ← f a
    let bs ← mapOpt f l
    pure (b :: bs)

/-- numpy column extraction `g[:, i]`. -/
def getColumn (g : Grid) (i : Int) : Option (List ℚ) :=
  mapOpt (fun row => (npIndex row.length i).bind fun j => row.get? j) g

/-- The entries of `xs` selected by a boolean mask of the same length. -/
def maskFilter : List ℚ → List Bool → List ℚ
  | x :: xs, b :: bs => if b then x :: maskFilter xs bs else maskFilter xs bs
  | _, _ => []

/-- numpy boolean-mask selection `xs[mask]`: the mask must have the indexed
array's length, otherwise an `IndexError` (`none`). -/
def maskSelect (xs : List ℚ) (mask : List Bool) : Option (List ℚ) :=
  if xs.length = mask.length then some (maskFilter xs mask) else none

/-- The builder `build_powerline_values`: `np.ones((nrows, ncols))` with
`values[:, (ncols // 2) - 1] = 100.0`. -/
def build_powerline_values (nrows ncols : Nat) : Option Grid :=
  (npIndex ncols (powerline_col_index ncols)).map fun j =>
    List.replicate nrows ((List.range ncols).map fun c => if c = j then (100 : ℚ) else 1)

/-- Join line fields with a separator character (Python `sep.join`). -/
def joinSep (sep : Char) : List (List Char) → List Char
  | [] => []
  | [p] => p
  | p :: q :: rest => p ++ sep :: joinSep sep (q :: rest)

/-- Split a line at every occurrence of `sep` (inverse of `joinSep` on
separator-free fields). -/
def splitCh (sep : Char) : List Char → List (List Char)
  | [] => [[]]
  | c :: rest =>
    let r := splitCh sep rest
    if c = sep then [] :: r else (c :: r.headD []) :: r.tail

/-- The synthesizer `build_forest_asc`: the six fixed header lines of
`Forest.asc` followed by
`nrows` grid lines, each `ncols` copies of fuel code `1` joined by spaces. -/
def build_forest_asc (nrows ncols : Nat) : List (List Char) :=
  [("ncols " ++ toString ncols).data,
   ("nrows " ++ toString nrows).data,
   "xllcorner 0".data,
   "yllcorner 0".data,
   "cellsize 100".data,
   "NODATA_value -9999".data]
  ++ List.replicate nrows (joinSep ' ' (List.replicate ncols ['1']))

/-- The fixed `Data.csv` header record. -/
def data_csv_header : List String :=
  ["fueltype", "mon", "jd", "M", "jd_min", "lat", "lon", "elev", "ffmc", "ws",
   "waz", "bui", "ps", "saz", "pc", "pdf", "gfl", "cur", "time", "pattern"]

/-- The constant per-cell `Data.csv` record (C1 fuel, flat terrain). -/
def data_csv_row : List String :=
  ["C1", "", "", "", "", "51.0", "-115.0", "0", "", "", "", "", "0", "0",
   "", "", "0.75", "", "20", ""]

/-- The synthesizer `build_data_csv`: the header record then one identical
record per cell. -/
def build_data_csv (nrows ncols : Nat) : List (List String) :=
  data_csv_header :: List.replicate (nrows * ncols) data_csv_row

/-- Fixed-point `%.1f` formatting of the nonnegative exact-tenth values the value map
holds (`1.0`, `100.0`): integer part, a dot, one decimal digit.  (For such
values C's `%.1f` performs no rounding, so flooring is exact.) -/
def fmt_1f (q : ℚ) : List Char :=
  let n := (q * 10).floor.toNat
  (toString (n / 10)).data ++ '.' :: (toString (n % 10)).data

/-- Digits-only numeral parser. -/
def digitsToNat (s : List Char) : Option Nat :=
  if s ≠ [] ∧ s.all Char.isDigit then
    some (s.foldl (fun n c => 10 * n + (c.toNat - 48)) 0)
  else none

/-- Parse a plain decimal numeral (`intpart` or `intpart.fracpart`) exactly,
as `np.loadtxt` does for the files this pipeline writes. -/
def parseDecimal (s : List Char) : Option ℚ :=
  match splitCh '.' s with
  | [ip] => (digitsToNat ip).map fun a => (a : ℚ)
  | [ip, fp] => do
      let a ← digitsToNat ip
      let b ← digitsToNat fp
      pure ((a : ℚ) + (b : ℚ) / (10 : ℚ) ^ fp.length)
  | _ => none

/-- The call `np.savetxt(values_path, values, fmt="%.1f", delimiter=" ")`:
one line per grid row, fields space-joined. -/
def savetxt (m : Grid) : List (List Char) :=
  m.map fun row => joinSep ' ' (row.map fmt_1f)

/-- Whitespace-delimited numeric file reading (as `np.loadtxt` would read the
value file back). -/
def loadtxt_space (lines : List (List Char)) : Option Grid :=
  mapOpt (fun l => mapOpt parseDecimal (splitCh ' ' l)) lines

/-- The locator `get_last_forest_grid_for_sim`, the filesystem listing of the replicate's
grid folder passed in as the list of `ForestGrid*.csv` names found there
(each name a character list, ordered lexicographically as Python sorts
strings): sort by name, take the last; an empty listing is the
`RuntimeError` (`none`). -/
def get_last_forest_grid_for_sim (forest_files : List (List Char)) :
    Option (List Char) :=
  (List.insertionSort (fun a b => a ≤ b) forest_files).getLast?

/-- The aggregate numbers `evaluate_losses` reports. -/
structure RiskReport where
  hit_count : Nat
  losses : List ℚ
  hit_rate : ℚ
  avg_loss : ℚ
  max_loss : ℚ
  deriving DecidableEq

/-- The `evaluate_losses` loop body for one replicate: extract the power-line
column of the final grid, mark burned cells (`== 1`), sum the power-line
values selected by the burned mask, and record whether any cell burned. -/
def sim_result (powerline_values : List ℚ) (i : Int) (final_grid : Grid) :
    Option (ℚ × Bool) :=
  (getColumn final_grid i).bind fun col =>
    (maskSelect powerline_values (col.map fun x => decide (x = 1))).bind
      fun selected => some (selected.sum, (col.map fun x => decide (x = 1)).any id)

/-- The aggregator `evaluate_losses` on the already-loaded per-replicate final grids
(`nsims = grids.length`; the loop accumulators become a map over the list):
`hit_rate = hit_count / nsims`, `avg_loss = np.mean(losses)`,
`max_loss = np.max(losses)` (a `ValueError`, `none`, when no replicates ran). -/
def evaluate_losses (values : Grid) (grids : List Grid) : Option RiskReport :=
  let ncols := (values.headD []).length
  let i := powerline_col_index ncols
  (getColumn values i).bind fun powerline_values =>
    (mapOpt (sim_result powerline_values i) grids).bind fun results =>
      let losses := results.map Prod.fst
      let hit_count := (results.filter fun r => r.2).length
      match losses with
      | [] => none
      | l0 :: rest =>
        some { hit_count := hit_count
               losses := losses
               hit_rate := (hit_count : ℚ) / (grids.length : ℚ)
               avg_loss := losses.sum / (losses.length : ℚ)
               max_loss := rest.foldl max l0 }

/-! ### Spec-side formulas -/

/-- Column `j` of a grid (the asset column when `j` is the power-line index). -/
def column (g : Grid) (j : Nat) : List ℚ := g.map fun row => row.getD j 0

/-- The spec's per-replicate loss: the sum, over the asset column's cells, of
the value-map entry wherever the burn state equals 1. -/
def spec_loss (pv col : List ℚ) : ℚ :=
  ∑ i ∈ Finset.range pv.length, if col.getD i 0 = 1 then pv.getD i 0 else 0

/-- The spec's notion of a hit: at least one asset cell burned. -/
def spec_hit (col : List ℚ) : Prop := ∃ x ∈ col, x = 1

instance (col : List ℚ) : Decidable (spec_hit col) := by
  unfold spec_hit; infer_instance

/-! ### Concrete scenario data -/

/-- The 4×4 value map of the spec's reference scenario (asset column 1,
row values `[1, 100, 1, 1]`). -/
def testValues : Grid :=
  [[1, 100, 1, 1], [1, 100, 1, 1], [1, 100, 1, 1], [1, 100, 1, 1]]

/-- Replicate 1 of the reference scenario: asset column entirely burned. -/
def rep1Grid : Grid :=
  [[0, 1, 0, 0], [0, 1, 0, 0], [0, 1, 0, 0], [0, 1, 0, 0]]

/-- Replicate 2 of the reference scenario: asset column entirely unburned. -/
def rep2Grid : Grid :=
  [[0, 0, 0, 0], [0, 0, 0, 0], [0, 0, 0, 0], [0, 0, 0, 0]]

/-- A burn grid with the value map's row count but one column fewer: its
shape `(4, 3)` differs from the value map's `(4, 4)`. -/
def mismatchGrid : Grid := [[1, 1, 1], [1, 1, 1], [1, 1, 1], [1, 1, 1]]

/-- A 3×4 burn grid: one row fewer than the 4×4 value map. -/
def shortGrid : Grid := [[0, 0, 0, 0], [0, 0, 0, 0], [0, 0, 0, 0]]

/-! ### Basic lemmas about the embedding -/

theorem mapOpt_nil {α β : Type} (f : α → Option β) : mapOpt f [] = some [] := rfl

theorem mapOpt_cons {α β : Type} (f : α → Option β) (a : α) (l : List α) :
    mapOpt f (a :: l) =
      (f a).bind fun b => (mapOpt f l).bind fun bs => some (b :: bs) := rfl

theorem mapOpt_eq_some_map {α β : Type} (f : α → Option β) (g : α → β) :
    ∀ l : List α, (∀ a ∈ l, f a = some (g a)) → mapOpt f l = some (l.map g)
  | [], _ => rfl
  | a :: l, h => by
    have ha := h a (List.mem_cons_self a l)
    have hl := mapOpt_eq_some_map f g l fun x hx => h x (List.mem_cons_of_mem a hx)
    simp [mapOpt_cons, ha, hl]

theorem mapOpt_eq_none {α β : Type} (f : α → Option β) :
    ∀ l : List α, (∃ a ∈ l, f a = none) → mapOpt f l = none
  | a :: l, h => by
    rcases h with ⟨x, hx, hfx⟩
    rcases List.mem_cons.mp hx with rfl | hx
    · simp [mapOpt_cons, hfx]
    · have := mapOpt_eq_none f l ⟨x, hx, hfx⟩
      cases hfa : f a <;> simp [mapOpt_cons, hfa, this]

theorem mapOpt_length {α β : Type} (f : α → Option β) :
    ∀ (l : List α) (l' : List β), mapOpt f l = some l' → l'.length = l.length
  | [], l', h => by simpa [mapOpt_nil] using congrArg (Option.map List.length) h.symm
  | a :: l, l', h => by
    rw [mapOpt_cons] at h
    cases hfa : f a with
    | none => rw [hfa] at h; simp at h
    | some b =>
      rw [hfa] at h
      cases hml : mapOpt f l with
      | none => rw [hml] at h; simp at h
      | some bs =>
        rw [hml] at h
        simp at h
        subst h
        simp [mapOpt_length f l bs hml]

theorem npIndex_coe (len j : Nat) (h : j < len) : npIndex len (j : Int) = some j := by
  have h0 : ¬ ((j : Int) < 0) := by omega
  have h1 : (0 : Int) ≤ (j : Int) ∧ (j : Int) < (len : Int) := by omega
  simp [npIndex, h0, h1]

theorem powerline_col_index_coe (cols : Nat) (h : 2 ≤ cols) :
    powerline_col_index cols = ((cols / 2 - 1 : Nat) : Int) := by
  unfold powerline_col_index; omega

theorem getColumn_eq (j : Nat) :
    ∀ g : Grid, (∀ row ∈ g, j < row.length) → getColumn g (j : Int) = some (column g j)
  | [], _ => rfl
  | row :: g, h => by
    have hr : j < row.length := h row (List.mem_cons_self row g)
    have hg := getColumn_eq j g fun r hrm => h r (List.mem_cons_of_mem row hrm)
    unfold getColumn at hg ⊢
    rw [mapOpt_cons, npIndex_coe _ _ hr, Option.some_bind, List.get?_eq_get hr,
      Option.some_bind, hg, Option.some_bind]
    have hcol : column (row :: g) j = row.getD j 0 :: column g j := rfl
    rw [hcol, List.getD_eq_get row 0 hr]

theorem maskSelect_eq (pv : List ℚ) (mask : List Bool) (h : pv.length = mask.length) :
    maskSelect pv mask = some (maskFilter pv mask) := by
  simp [maskSelect, h]

theorem maskFilter_sum :
    ∀ pv col : List ℚ, pv.length = col.length →
      (maskFilter pv (col.map fun x => decide (x = 1))).sum = spec_loss pv col
  | [], [], _ => by simp [maskFilter, spec_loss]
  | p :: pv, c :: col, h => by
    have ih := maskFilter_sum pv col (by simpa using h)
    unfold spec_loss
    rw [List.length_cons, Finset.sum_range_succ']
    simp only [List.getD_cons_succ, List.getD_cons_zero, List.map_cons]
    by_cases hc : c = 1 <;>
      simp [maskFilter, hc, ih, spec_loss, add_comm]

theorem any_eq_decide_spec_hit (col : List ℚ) :
    ((col.map fun x => decide (x = 1)).any id) = decide (spec_hit col) := by
  have h : ((col.map fun x => decide (x = 1)).any id = true) ↔ spec_hit col := by
    simp [List.any_eq_true, spec_hit]
  cases hb : (col.map fun x => decide (x = 1)).any id with
  | false =>
    have hns : ¬ spec_hit col := by
      intro hs
      rw [h.mpr hs] at hb
      simp at hb
    exact (decide_eq_false hns).symm
  | true => exact (decide_eq_true (h.mp hb)).symm

theorem sim_result_eq (pv : List ℚ) (j : Nat) (g : Grid)
    (hlen : pv.length = g.length) (hcols : ∀ row ∈ g, j < row.length) :
    sim_result pv (j : Int) g =
      some (spec_loss pv (column g j), decide (spec_hit (column g j))) := by
  unfold sim_result
  rw [getColumn_eq j g hcols]
  have hm : pv.length = ((column g j).map fun x => decide (x = 1)).length := by
    simp [column, hlen]
  have hsum := maskFilter_sum pv (column g j) (by simp [column, hlen])
  simp [maskSelect_eq _ _ hm, hsum, any_eq_decide_spec_hit]

/-! ### Folded maximum -/

theorem foldl_max_init (a : ℚ) : ∀ l : List ℚ, a ≤ l.foldl max a
  | [] => le_refl a
  | x :: l => le_trans (le_max_left a x) (foldl_max_init (max a x) l)

theorem foldl_max_mem (a : ℚ) : ∀ l : List ℚ, l.foldl max a ∈ a :: l
  | [] => List.mem_singleton.mpr rfl
  | x :: l => by
    have h := foldl_max_mem (max a x) l
    have hfold : (x :: l).foldl max a = l.foldl max (max a x) := rfl
    rw [hfold]
    rcases List.mem_cons.mp h with h | h
    · rw [h]
      rcases max_choice a x with hax | hax
      · rw [hax]; exact List.mem_cons_self a (x :: l)
      · rw [hax]; exact List.mem_cons_of_mem a (List.mem_cons_self x l)
    · exact List.mem_cons_of_mem a (List.mem_cons_of_mem x h)

theorem le_foldl_max (a y : ℚ) : ∀ l : List ℚ, y ∈ l → y ≤ l.foldl max a
  | x :: l, h => by
    rcases List.mem_cons.mp h with rfl | h
    · exact le_trans (le_max_right a y) (foldl_max_init _ l)
    · exact le_foldl_max (max a x) y l h

/-! ### Running the aggregation on well-shaped inputs -/

/-- Unfolding `evaluate_losses` on a nonempty list of well-shaped grids:
every accumulator is characterized by the spec-side formulas. -/
theorem evaluate_losses_run (values g0 : Grid) (gs : List Grid) (rows cols : Nat)
    (hrows : 1 ≤ rows) (hcols : 2 ≤ cols)
    (hvl : values.length = rows) (hvr : ∀ row ∈ values, row.length = cols)
    (hg : ∀ g ∈ g0 :: gs, g.length = rows ∧ ∀ row ∈ g, row.length = cols) :
    evaluate_losses values (g0 :: gs) =
      some { hit_count := (g0 :: gs).countP fun g =>
               decide (spec_hit (column g (cols / 2 - 1)))
             losses := (g0 :: gs).map fun g =>
               spec_loss (column values (cols / 2 - 1)) (column g (cols / 2 - 1))
             hit_rate := ((g0 :: gs).countP fun g =>
               decide (spec_hit (column g (cols / 2 - 1))) : ℚ) /
               ((g0 :: gs).length : ℚ)
             avg_loss := ((g0 :: gs).map fun g =>
               spec_loss (column values (cols / 2 - 1)) (column g (cols / 2 - 1))).sum /
               ((g0 :: gs).length : ℚ)
             max_loss := (gs.map fun g =>
               spec_loss (column values (cols / 2 - 1)) (column g (cols / 2 - 1))).foldl
               max (spec_loss (column values (cols / 2 - 1)) (column g0 (cols / 2 - 1))) } := by
  set j := cols / 2 - 1 with hj
  set pv := column values j with hpv
  have hjc : j < cols := by omega
  have hhead : (values.headD []).length = cols := by
    cases values with
    | nil => simp at hvl; omega
    | cons v0 vrest => exact hvr v0 (List.mem_cons_self v0 vrest)
  have hcoe : powerline_col_index ((values.headD []).length) = (j : Int) := by
    rw [hhead, powerline_col_index_coe cols hcols]
  have hcolv : getColumn values (j : Int) = some pv :=
    getColumn_eq j values fun row hrow => by rw [hvr row hrow]; exact hjc
  have hpvlen : pv.length = rows := by simp [hpv, column, hvl]
  have hsim : ∀ g ∈ g0 :: gs, sim_result pv (j : Int) g =
      some (spec_loss pv (column g j), decide (spec_hit (column g j))) := by
    intro g hgm
    exact sim_result_eq pv j g (by rw [hpvlen, (hg g hgm).1])
      fun row hrow => by rw [(hg g hgm).2 row hrow]; exact hjc
  have hmap := mapOpt_eq_some_map (sim_result pv (j : Int))
    (fun g => (spec_loss pv (column g j), decide (spec_hit (column g j)))) (g0 :: gs) hsim
  set f : Grid → ℚ × Bool :=
    fun g => (spec_loss pv (column g j), decide (spec_hit (column g j))) with hf
  have hrun : evaluate_losses values (g0 :: gs) =
      some { hit_count := (((g0 :: gs).map f).filter fun r => r.2).length
             losses := ((g0 :: gs).map f).map Prod.fst
             hit_rate := ((((g0 :: gs).map f).filter fun r => r.2).length : ℚ) /
               ((g0 :: gs).length : ℚ)
             avg_loss := (((g0 :: gs).map f).map Prod.fst).sum /
               ((((g0 :: gs).map f).map Prod.fst).length : ℚ)
             max_loss := ((gs.map f).map Prod.fst).foldl max (f g0).1 } := by
    unfold evaluate_losses
    dsimp only
    rw [hcoe, hcolv, Option.some_bind, hmap, Option.some_bind]
    rfl
  have hcount : (((g0 :: gs).map f).filter fun r => r.2).length =
      (g0 :: gs).countP fun g => decide (spec_hit (column g j)) := by
    rw [← List.countP_eq_length_filter, List.countP_map]
    rfl
  have hlossl : ∀ l : List Grid, ((l.map f).map Prod.fst) =
      l.map fun g => spec_loss pv (column g j) := by
    intro l
    rw [List.map_map]
    rfl
  rw [hrun]
  simp only [Option.some.injEq, RiskReport.mk.injEq]
  refine ⟨hcount, hlossl _, ?_, ?_, ?_⟩
  · rw [hcount]
  · rw [hlossl]
    simp [List.length_map]
  · rw [hlossl gs]

/-! ### The value map in closed form -/

theorem build_powerline_values_eq (rows cols : Nat) (hc : 2 ≤ cols) :
    build_powerline_values rows cols =
      some (List.replicate rows ((List.range cols).map
        fun c => if c = cols / 2 - 1 then (100 : ℚ) else 1)) := by
  have hj : cols / 2 - 1 < cols := by omega
  rw [build_powerline_values, powerline_col_index_coe cols hc,
    npIndex_coe cols _ hj]
  rfl

/-! ### Separator joining and splitting -/

theorem splitCh_single (sep : Char) : ∀ p : List Char, sep ∉ p → splitCh sep p = [p]
  | [], _ => rfl
  | c :: p, h => by
    have hc : ¬ (c = sep) := fun hcs => h (hcs ▸ List.mem_cons_self c p)
    have hp := splitCh_single sep p fun hm => h (List.mem_cons_of_mem c hm)
    simp [splitCh, hc, hp]

theorem splitCh_append_sep (sep : Char) :
    ∀ p l : List Char, sep ∉ p → splitCh sep (p ++ sep :: l) = p :: splitCh sep l
  | [], l, _ => by simp [splitCh]
  | c :: p, l, h => by
    have hc : ¬ (c = sep) := fun hcs => h (hcs ▸ List.mem_cons_self c p)
    have ih := splitCh_append_sep sep p l fun hm => h (List.mem_cons_of_mem c hm)
    simp [splitCh, hc, ih]

theorem splitCh_joinSep (sep : Char) :
    ∀ ps : List (List Char), ps ≠ [] → (∀ p ∈ ps, sep ∉ p) →
      splitCh sep (joinSep sep ps) = ps
  | [p], _, h => by
    rw [joinSep]
    exact splitCh_single sep p (h p (List.mem_cons_self p []))
  | p :: q :: ps, _, h => by
    rw [joinSep]
    have ih := splitCh_joinSep sep (q :: ps) (by simp)
      fun x hx => h x (List.mem_cons_of_mem p hx)
    rw [splitCh_append_sep sep p _ (h p (List.mem_cons_self p (q :: ps))), ih]

theorem mapOpt_map {α β γ : Type} (f : β → Option γ) (h : α → β) :
    ∀ l : List α, mapOpt f (l.map h) = mapOpt (fun a => f (h a)) l
  | [] => rfl
  | a :: l => by simp [mapOpt_cons, mapOpt_map f h l]

/-! ### Mask-selection bounds -/

theorem maskFilter_mem (x : ℚ) :
    ∀ (pv : List ℚ) (mask : List Bool), x ∈ maskFilter pv mask → x ∈ pv
  | p :: pv, true :: mask, h => by
    simp only [maskFilter, if_pos] at h
    rcases List.mem_cons.mp h with rfl | h
    · exact List.mem_cons_self x pv
    · exact List.mem_cons_of_mem p (maskFilter_mem x pv mask h)
  | p :: pv, false :: mask, h => by
    simp only [maskFilter, Bool.false_eq_true, if_false] at h
    exact List.mem_cons_of_mem p (maskFilter_mem x pv mask h)

theorem maskFilter_sum_nonneg (pv : List ℚ) (mask : List Bool)
    (h : ∀ x ∈ pv, 0 ≤ x) : 0 ≤ (maskFilter pv mask).sum :=
  List.sum_nonneg fun x hx => h x (maskFilter_mem x pv mask hx)

theorem maskFilter_sum_le :
    ∀ (pv : List ℚ) (mask : List Bool), (∀ x ∈ pv, 0 ≤ x) →
      (maskFilter pv mask).sum ≤ pv.sum
  | [], mask, _ => by cases mask <;> simp [maskFilter]
  | p :: pv, [], h => by
    simp only [maskFilter, List.sum_nil]
    exact List.sum_nonneg h
  | p :: pv, true :: mask, h => by
    have ih := maskFilter_sum_le pv mask fun x hx => h x (List.mem_cons_of_mem p hx)
    simp only [maskFilter, if_pos, List.sum_cons]
    linarith
  | p :: pv, false :: mask, h => by
    have hp : 0 ≤ p := h p (List.mem_cons_self p pv)
    have ih := maskFilter_sum_le pv mask fun x hx => h x (List.mem_cons_of_mem p hx)
    simp only [maskFilter, Bool.false_eq_true, if_false, List.sum_cons]
    linarith

theorem maskFilter_sum_pos_iff :
    ∀ (pv : List ℚ) (mask : List Bool), pv.length = mask.length →
      (∀ x ∈ pv, 0 < x) → (mask.any id = true ↔ 0 < (maskFilter pv mask).sum)
  | [], [], _, _ => by simp [maskFilter]
  | p :: pv, true :: mask, hlen, hpos => by
    have hp : 0 < p := hpos p (List.mem_cons_self p pv)
    have hnn : ∀ x ∈ pv, 0 ≤ x := fun x hx =>
      le_of_lt (hpos x (List.mem_cons_of_mem p hx))
    simp only [maskFilter, if_pos, List.sum_cons, List.any_cons, id,
      Bool.true_or, true_iff]
    have := maskFilter_sum_nonneg pv mask hnn
    linarith
  | p :: pv, false :: mask, hlen, hpos => by
    have ih := maskFilter_sum_pos_iff pv mask (by simpa using hlen)
      fun x hx => hpos x (List.mem_cons_of_mem p hx)
    simp only [maskFilter, Bool.false_eq_true, if_false, List.any_cons, id,
      Bool.false_or]
    exact ih

/-! ### Last element of a sorted list -/

theorem pairwise_getLast?_ub {α : Type} (r : α → α → Prop) :
    ∀ (l : List α) (s : α), l.Pairwise r → l.getLast? = some s →
      ∀ t ∈ l, t = s ∨ r t s
  | [], s, _, h, t, ht => by simp at h
  | [a], s, _, h, t, ht => by
    simp only [List.getLast?_singleton, Option.some.injEq] at h
    rcases List.mem_singleton.mp ht with rfl
    exact Or.inl h
  | a :: b :: l, s, hp, h, t, ht => by
    rw [List.getLast?_cons_cons] at h
    rcases List.mem_cons.mp ht with rfl | ht
    · right
      exact (List.pairwise_cons.mp hp).1 s (List.mem_of_mem_getLast? h)
    · exact pairwise_getLast?_ub r (b :: l) s (List.pairwise_cons.mp hp).2 h t ht

/-! ## Claim theorems -/

/-- C3: for every `(rows, cols)` with `cols ≥ 2` (so that the 0-based asset
column index `cols / 2 - 1` denotes an actual column), the Value Map Builder
succeeds and returns a `rows × cols` matrix whose every cell holds the
baseline `1.0` except the cells of column `cols / 2 - 1`, which all hold
`100.0`; being a pure function of `(rows, cols)`, it is deterministic, and
the asset column index is `cols / 2 - 1`. -/
theorem build_powerline_values_spec (rows cols : Nat) (hc : 2 ≤ cols) :
    ∃ m : Grid, build_powerline_values rows cols = some m ∧
      m.length = rows ∧
      (∀ row ∈ m, row.length = cols) ∧
      (∀ row ∈ m, ∀ c < cols,
        row.getD c 0 = if c = cols / 2 - 1 then (100 : ℚ) else 1) ∧
      powerline_col_index cols = ((cols / 2 - 1 : Nat) : Int) := by
  refine ⟨_, build_powerline_values_eq rows cols hc, by simp, ?_, ?_,
    powerline_col_index_coe cols hc⟩
  · intro row hrow
    rw [List.eq_of_mem_replicate hrow]
    simp
  · intro row hrow c hcc
    rw [List.eq_of_mem_replicate hrow]
    have hlt : c < ((List.range cols).map
        fun c => if c = cols / 2 - 1 then (100 : ℚ) else 1).length := by
      simpa using hcc
    rw [List.getD_eq_getElem _ _ hlt]
    simp

/-- C3 witness at `rows = cols = 4`. -/
theorem build_powerline_values_spec_witness :
    ∃ m : Grid, build_powerline_values 4 4 = some m ∧
      m.length = 4 ∧
      (∀ row ∈ m, row.length = 4) ∧
      (∀ row ∈ m, ∀ c < 4,
        row.getD c 0 = if c = 4 / 2 - 1 then (100 : ℚ) else 1) ∧
      powerline_col_index 4 = ((4 / 2 - 1 : Nat) : Int) :=
  build_powerline_values_spec 4 4 (by decide)

/-- C4: for every `(rows, cols)` with at least one column, the synthesized
attribute table holds exactly `rows * cols` data records after its fixed
header record, and the raster file holds, after its six header lines,
exactly `rows` grid lines that each split on the space delimiter into
exactly `cols` fuel-code values (all equal to `"1"`). -/
theorem landscape_synth_sizes (nrows ncols : Nat) (hc : 1 ≤ ncols) :
    ((build_data_csv nrows ncols).length = nrows * ncols + 1 ∧
      (build_data_csv nrows ncols).tail.length = nrows * ncols) ∧
    ((build_forest_asc nrows ncols).length = 6 + nrows ∧
      ∀ line ∈ (build_forest_asc nrows ncols).drop 6,
        splitCh ' ' line = List.replicate ncols ['1'] ∧
        (splitCh ' ' line).length = ncols) := by
  refine ⟨⟨by simp [build_data_csv], by simp [build_data_csv]⟩, ?_, ?_⟩
  · simp [build_forest_asc]
    omega
  · intro line hline
    have hdrop : (build_forest_asc nrows ncols).drop 6 =
        List.replicate nrows (joinSep ' ' (List.replicate ncols ['1'])) := by
      rfl
    rw [hdrop] at hline
    rw [List.eq_of_mem_replicate hline]
    have hsplit : splitCh ' ' (joinSep ' ' (List.replicate ncols ['1'])) =
        List.replicate ncols ['1'] := by
      refine splitCh_joinSep ' ' _ ?_ ?_
      · intro h
        rw [← List.length_eq_zero] at h
        simp at h
        omega
      · intro p hp
        rw [List.eq_of_mem_replicate hp]
        decide
    rw [hsplit]
    simp

/-- C4 witness at `rows = 2`, `cols = 3`. -/
theorem landscape_synth_sizes_witness :
    ((build_data_csv 2 3).length = 2 * 3 + 1 ∧
      (build_data_csv 2 3).tail.length = 2 * 3) ∧
    ((build_forest_asc 2 3).length = 6 + 2 ∧
      ∀ line ∈ (build_forest_asc 2 3).drop 6,
        splitCh ' ' line = List.replicate 3 ['1'] ∧
        (splitCh ' ' line).length = 3) :=
  landscape_synth_sizes 2 3 (by decide)

/- The arithmetic of `ℚ` is sealed behind `irreducible` in the library; for
concrete evaluations of the embedded pipeline we unseal it locally. -/
attribute [local semireducible] Rat.add Rat.mul Rat.inv Rat.sub Rat.ofScientific

/-- The two values the value map holds survive the `%.1f` round trip. -/
theorem parse_fmt_one : parseDecimal (fmt_1f 1) = some 1 := by decide

theorem parse_fmt_hundred : parseDecimal (fmt_1f 100) = some 100 := by decide

theorem space_not_mem_fmt_one : ' ' ∉ fmt_1f 1 := by decide

theorem space_not_mem_fmt_hundred : ' ' ∉ fmt_1f 100 := by decide

/-- Writing a grid of `1.0`s and `100.0`s in the fixed-point text format and
reading it back is the identity. -/
theorem loadtxt_savetxt (m : Grid)
    (hne : ∀ row ∈ m, row ≠ [])
    (hval : ∀ row ∈ m, ∀ x ∈ row, x = 1 ∨ x = 100) :
    loadtxt_space (savetxt m) = some m := by
  unfold loadtxt_space savetxt
  rw [mapOpt_map]
  have hline : ∀ row ∈ m,
      mapOpt parseDecimal (splitCh ' ' (joinSep ' ' (row.map fmt_1f))) =
        some (id row) := by
    intro row hrow
    have hsplit : splitCh ' ' (joinSep ' ' (row.map fmt_1f)) = row.map fmt_1f := by
      refine splitCh_joinSep ' ' _ ?_ ?_
      · intro h
        exact hne row hrow (by simpa using h)
      · intro p hp
        rcases List.mem_map.mp hp with ⟨x, hx, rfl⟩
        rcases hval row hrow x hx with rfl | rfl
        · exact space_not_mem_fmt_one
        · exact space_not_mem_fmt_hundred
    rw [hsplit, mapOpt_map]
    have := mapOpt_eq_some_map (fun a => parseDecimal (fmt_1f a)) id row ?_
    · simpa using this
    · intro x hx
      rcases hval row hrow x hx with rfl | rfl
      · exact parse_fmt_one
      · exact parse_fmt_hundred
  have := mapOpt_eq_some_map
    (fun row => mapOpt parseDecimal (splitCh ' ' (joinSep ' ' (row.map fmt_1f))))
    id m hline
  simpa using this

/-- C5: the value map produced by the builder, written in the fixed-point
one-decimal space-delimited format and read back, reproduces the original
matrix exactly (its only values, `1.0` and `100.0`, are preserved). -/
theorem value_map_roundtrip (rows cols : Nat) (hc : 2 ≤ cols) (m : Grid)
    (hm : build_powerline_values rows cols = some m) :
    loadtxt_space (savetxt m) = some m := by
  rw [build_powerline_values_eq rows cols hc] at hm
  have hm' : m = List.replicate rows ((List.range cols).map
      fun c => if c = cols / 2 - 1 then (100 : ℚ) else 1) := (Option.some.inj hm).symm
  subst hm'
  refine loadtxt_savetxt _ ?_ ?_
  · intro row hrow
    rw [List.eq_of_mem_replicate hrow]
    intro hemp
    have : cols = 0 := by simpa using congrArg List.length hemp
    omega
  · intro row hrow x hx
    rw [List.eq_of_mem_replicate hrow] at hx
    rcases List.mem_map.mp hx with ⟨c, _, rfl⟩
    by_cases h : c = cols / 2 - 1 <;> simp [h]

/-- C5 witness at `rows = cols = 4`. -/
theorem value_map_roundtrip_witness :
    loadtxt_space (savetxt [[1, 100, 1, 1], [1, 100, 1, 1], [1, 100, 1, 1],
      [1, 100, 1, 1]]) = some [[1, 100, 1, 1], [1, 100, 1, 1], [1, 100, 1, 1],
      [1, 100, 1, 1]] :=
  value_map_roundtrip 4 4 (by decide) _ (by decide)

/-- C1: on well-shaped inputs the Risk Aggregator computes each replicate's
loss as the sum of the value-map entries of the asset-column cells whose burn
state equals 1, counts a hit exactly for the replicates with at least one
burned asset cell, and reports `hit_rate = hit_count / nsims`, the mean of
all per-replicate losses (zeros included) and the maximum per-replicate
loss. -/
theorem risk_aggregation_spec (values : Grid) (grids : List Grid)
    (rows cols nsims : Nat)
    (hrows : 1 ≤ rows) (hcols : 2 ≤ cols)
    (hvl : values.length = rows) (hvr : ∀ row ∈ values, row.length = cols)
    (hns : grids.length = nsims) (hns1 : 1 ≤ nsims)
    (hg : ∀ g ∈ grids, g.length = rows ∧ ∀ row ∈ g, row.length = cols) :
    ∃ r : RiskReport, evaluate_losses values grids = some r ∧
      r.losses = grids.map (fun g =>
        spec_loss (column values (cols / 2 - 1)) (column g (cols / 2 - 1))) ∧
      r.hit_count = grids.countP
        (fun g => decide (spec_hit (column g (cols / 2 - 1)))) ∧
      r.hit_rate = (r.hit_count : ℚ) / (nsims : ℚ) ∧
      r.avg_loss = r.losses.sum / (nsims : ℚ) ∧
      r.max_loss ∈ r.losses ∧ ∀ l ∈ r.losses, l ≤ r.max_loss := by
  obtain ⟨g0, gs, rfl⟩ : ∃ g0 gs, grids = g0 :: gs := by
    cases grids with
    | nil => simp at hns; omega
    | cons a l => exact ⟨a, l, rfl⟩
  subst hns
  refine ⟨_, evaluate_losses_run values g0 gs rows cols hrows hcols hvl hvr hg,
    rfl, rfl, rfl, rfl, ?_, ?_⟩
  · dsimp only
    rw [List.map_cons]
    exact foldl_max_mem _ _
  · dsimp only
    intro l hl
    rw [List.map_cons] at hl
    rcases List.mem_cons.mp hl with rfl | hl
    · exact foldl_max_init _ _
    · exact le_foldl_max _ _ _ hl

/-- C1 witness on the reference scenario. -/
theorem risk_aggregation_spec_witness :
    ∃ r : RiskReport, evaluate_losses testValues [rep1Grid, rep2Grid] = some r ∧
      r.losses = [rep1Grid, rep2Grid].map (fun g =>
        spec_loss (column testValues (4 / 2 - 1)) (column g (4 / 2 - 1))) ∧
      r.hit_count = [rep1Grid, rep2Grid].countP
        (fun g => decide (spec_hit (column g (4 / 2 - 1)))) ∧
      r.hit_rate = (r.hit_count : ℚ) / ((2 : Nat) : ℚ) ∧
      r.avg_loss = r.losses.sum / ((2 : Nat) : ℚ) ∧
      r.max_loss ∈ r.losses ∧ ∀ l ∈ r.losses, l ≤ r.max_loss :=
  risk_aggregation_spec testValues [rep1Grid, rep2Grid] 4 4 2
    (by decide) (by decide) (by decide) (by decide) (by decide) (by decide)
    (by decide)

/-- C2: the reference scenario's numbers: replicate 1 (asset column burned)
loses `400.0` and is a hit, replicate 2 (asset column unburned) loses `0.0`
and is not, and the aggregate report is `hit_count = 1`, `hit_rate = 0.5`,
`mean loss = 200.0`, `max loss = 400.0`. -/
theorem reference_scenario_numbers :
    build_powerline_values 4 4 = some testValues ∧
    sim_result (column testValues 1) (powerline_col_index 4) rep1Grid =
      some (400, true) ∧
    sim_result (column testValues 1) (powerline_col_index 4) rep2Grid =
      some (0, false) ∧
    evaluate_losses testValues [rep1Grid, rep2Grid] =
      some { hit_count := 1, losses := [400, 0], hit_rate := 1 / 2,
             avg_loss := 200, max_loss := 400 } := by
  decide

/-- C6: the Replicate Output Locator sorts the listed file names and returns
the last: an empty listing yields the error (`none`), never a default, and a
returned name is a member of the listing that every listed name is `≤`. -/
theorem locator_returns_last (files : List (List Char)) :
    (get_last_forest_grid_for_sim files = none ↔ files = []) ∧
    ∀ s, get_last_forest_grid_for_sim files = some s →
      s ∈ files ∧ ∀ t ∈ files, t ≤ s := by
  have hperm := List.perm_insertionSort (fun a b : List Char => a ≤ b) files
  constructor
  · unfold get_last_forest_grid_for_sim
    rw [List.getLast?_eq_none_iff]
    rw [← List.length_eq_zero, ← List.length_eq_zero, hperm.length_eq]
  · intro s hs
    unfold get_last_forest_grid_for_sim at hs
    have hmem := List.mem_of_mem_getLast? hs
    refine ⟨hperm.mem_iff.mp hmem, ?_⟩
    intro t ht
    have htL := hperm.mem_iff.mpr ht
    have hsorted : List.Sorted (fun a b : List Char => a ≤ b)
        (List.insertionSort (fun a b : List Char => a ≤ b) files) :=
      List.sorted_insertionSort _ files
    rcases pairwise_getLast?_ub _ _ s hsorted hs t htL with rfl | hle
    · exact le_refl t
    · exact hle

/-- C6 witness on a three-file listing. -/
theorem locator_returns_last_witness :
    "ForestGrid11.csv".data ∈
      ["ForestGrid08.csv".data, "ForestGrid01.csv".data, "ForestGrid11.csv".data] ∧
    ∀ t ∈ ["ForestGrid08.csv".data, "ForestGrid01.csv".data,
      "ForestGrid11.csv".data], t ≤ "ForestGrid11.csv".data :=
  (locator_returns_last ["ForestGrid08.csv".data, "ForestGrid01.csv".data,
    "ForestGrid11.csv".data]).2 "ForestGrid11.csv".data (by decide)

/-- C7 as stated fails on the code: this burn grid's shape differs from the
value map's, yet the aggregation happily computes a loss for it (the asset
column index 1 still exists in the 3-column grid), instead of failing. -/
theorem shape_mismatch_processed :
    shape mismatchGrid ≠ shape testValues ∧
    evaluate_losses testValues [mismatchGrid] =
      some { hit_count := 1, losses := [400], hit_rate := 1,
             avg_loss := 400, max_loss := 400 } := by decide

/-- C7 amended: the aggregation does fail (`none`) when a grid's row count
differs from the value map's, or when some grid row is too short to contain
the asset column; only column-count mismatches that keep the asset column
in range are processed silently. -/
theorem shape_mismatch_amended (values : Grid) (grids : List Grid) (g : Grid)
    (rows cols : Nat) (hrows : 1 ≤ rows) (hcols : 2 ≤ cols)
    (hvl : values.length = rows) (hvr : ∀ row ∈ values, row.length = cols)
    (hmem : g ∈ grids)
    (hfail : g.length ≠ rows ∨ ∃ row ∈ g, row.length ≤ cols / 2 - 1) :
    evaluate_losses values grids = none := by
  set j := cols / 2 - 1 with hj
  have hjc : j < cols := by omega
  have hhead : (values.headD []).length = cols := by
    cases values with
    | nil => simp at hvl; omega
    | cons v0 vrest => exact hvr v0 (List.mem_cons_self v0 vrest)
  have hcoe : powerline_col_index ((values.headD []).length) = (j : Int) := by
    rw [hhead, powerline_col_index_coe cols hcols]
  have hcolv : getColumn values (j : Int) = some (column values j) :=
    getColumn_eq j values fun row hrow => by rw [hvr row hrow]; exact hjc
  have hsim : sim_result (column values j) (j : Int) g = none := by
    by_cases hshort : ∃ row ∈ g, row.length ≤ j
    · have hgcol : getColumn g (j : Int) = none := by
        unfold getColumn
        apply mapOpt_eq_none
        rcases hshort with ⟨row, hrow, hle⟩
        refine ⟨row, hrow, ?_⟩
        have hnone : npIndex row.length (j : Int) = none := by
          have h1 : ¬ ((j : Int) < 0) := by omega
          have h2 : ¬ ((0 : Int) ≤ (j : Int) ∧ (j : Int) < (row.length : Int)) := by
            omega
          simp [npIndex, h1, h2]
          omega
        rw [hnone]
        rfl
      unfold sim_result
      rw [hgcol]
      rfl
    · push_neg at hshort
      have hglen : g.length ≠ rows := by
        rcases hfail with h | h
        · exact h
        · rcases h with ⟨row, hrow, hle⟩
          exact absurd (hshort row hrow) (by omega)
      have hgcol := getColumn_eq j g fun row hrow => hshort row hrow
      have hmm : ¬ ((column values j).length =
          ((column g j).map fun x => decide (x = 1)).length) := by
        simp only [column, List.length_map]
        rw [hvl]
        exact fun hc => hglen hc.symm
      have hmask : maskSelect (column values j)
          ((column g j).map fun x => decide (x = 1)) = none := by
        unfold maskSelect
        rw [if_neg hmm]
      unfold sim_result
      rw [hgcol, Option.some_bind, hmask]
      rfl
  unfold evaluate_losses
  dsimp only
  rw [hcoe, hcolv, Option.some_bind,
    mapOpt_eq_none (sim_result (column values j) (j : Int)) grids ⟨g, hmem, hsim⟩]
  rfl

/-- C7 amended witness: a row-count mismatch is fatal. -/
theorem shape_mismatch_amended_witness :
    evaluate_losses testValues [shortGrid] = none :=
  shape_mismatch_amended testValues [shortGrid] shortGrid 4 4 (by decide)
    (by decide) (by decide) (by decide) (by decide) (Or.inl (by decide))

/-- C8: any report the aggregation returns has `hit_rate ∈ [0, 1]` and
`hit_count ≤ nsims` (the number of replicates supplied). -/
theorem hit_rate_bounds (values : Grid) (grids : List Grid) (r : RiskReport)
    (h : evaluate_losses values grids = some r) :
    0 ≤ r.hit_rate ∧ r.hit_rate ≤ 1 ∧ r.hit_count ≤ grids.length := by
  unfold evaluate_losses at h
  dsimp only at h
  cases hcol : getColumn values (powerline_col_index (values.headD []).length) with
  | none => rw [hcol] at h; simp at h
  | some pv =>
    rw [hcol, Option.some_bind] at h
    cases hres : mapOpt
        (sim_result pv (powerline_col_index (values.headD []).length)) grids with
    | none => rw [hres] at h; simp at h
    | some results =>
      rw [hres, Option.some_bind] at h
      have hlen := mapOpt_length _ grids results hres
      cases results with
      | nil => simp at h
      | cons p ps =>
        rw [List.map_cons] at h
        have heq := Option.some.inj h
        have hhc : r.hit_count = ((p :: ps).filter fun x => x.2).length := by
          rw [← heq]
        have hhr : r.hit_rate =
            ((((p :: ps).filter fun x => x.2).length : ℚ)) / (grids.length : ℚ) := by
          rw [← heq]
        have hcnt : ((p :: ps).filter fun x => x.2).length ≤ grids.length := by
          calc ((p :: ps).filter fun x => x.2).length ≤ (p :: ps).length :=
            List.length_filter_le _ _
          _ = grids.length := hlen
        have hpos : (0 : ℚ) < (grids.length : ℚ) := by
          have : 1 ≤ grids.length := by
            rw [← hlen]
            simp
          exact_mod_cast Nat.lt_of_lt_of_le Nat.zero_lt_one this
        refine ⟨?_, ?_, ?_⟩
        · rw [hhr]
          exact div_nonneg (Nat.cast_nonneg _) (Nat.cast_nonneg _)
        · rw [hhr]
          rw [div_le_one hpos]
          exact_mod_cast hcnt
        · rw [hhc]
          exact hcnt

/-- C8 witness on the reference scenario. -/
theorem hit_rate_bounds_witness :
    ∃ r : RiskReport, evaluate_losses testValues [rep1Grid, rep2Grid] = some r ∧
      0 ≤ r.hit_rate ∧ r.hit_rate ≤ 1 ∧ r.hit_count ≤ 2 :=
  ⟨{ hit_count := 1, losses := [400, 0], hit_rate := 1 / 2,
     avg_loss := 200, max_loss := 400 }, by decide,
   hit_rate_bounds testValues [rep1Grid, rep2Grid] _ (by decide)⟩

theorem column_replicate (n : Nat) (row : List ℚ) (j : Nat) :
    column (List.replicate n row) j = List.replicate n (row.getD j 0) := by
  simp [column, List.map_replicate]

/-- The asset column of the built value map is constantly `100`. -/
theorem build_values_column (rows cols : Nat) (hc : 2 ≤ cols) (m : Grid)
    (hm : build_powerline_values rows cols = some m) :
    column m (cols / 2 - 1) = List.replicate rows (100 : ℚ) := by
  rw [build_powerline_values_eq rows cols hc] at hm
  have hm' : m = List.replicate rows ((List.range cols).map
      fun c => if c = cols / 2 - 1 then (100 : ℚ) else 1) := (Option.some.inj hm).symm
  subst hm'
  rw [column_replicate]
  congr 1
  have hlt : cols / 2 - 1 < ((List.range cols).map
      fun c => if c = cols / 2 - 1 then (100 : ℚ) else 1).length := by
    simp
    omega
  rw [List.getD_eq_getElem _ _ hlt]
  simp

/-- C9: with the reference value map (asset column uniformly `100`, strictly
positive), a replicate is recorded as a hit exactly when its loss is
strictly positive; equivalently its loss is `0` exactly when it is not a
hit. -/
theorem hit_iff_positive_loss (rows cols : Nat) (hrows : 1 ≤ rows)
    (hcols : 2 ≤ cols)
    (m : Grid) (hm : build_powerline_values rows cols = some m)
    (g : Grid) (hgl : g.length = rows) (hgc : ∀ row ∈ g, row.length = cols)
    (loss : ℚ) (hit : Bool)
    (hs : sim_result (column m (cols / 2 - 1)) ((cols / 2 - 1 : Nat) : Int) g =
      some (loss, hit)) :
    (hit = true ↔ 0 < loss) ∧ (hit = false ↔ loss = 0) := by
  set j := cols / 2 - 1 with hj
  have hcol := build_values_column rows cols hcols m hm
  have hpvlen : (column m j).length = g.length := by
    rw [hcol, hgl]
    simp
  have hse := sim_result_eq (column m j) j g hpvlen
    fun row hrow => by rw [hgc row hrow]; omega
  rw [hse] at hs
  have hinj := Option.some.inj hs
  have hl := congrArg Prod.fst hinj
  have hh := congrArg Prod.snd hinj
  dsimp only at hl hh
  subst hl
  subst hh
  have hlen2 : (column m j).length = (column g j).length := by
    rw [hpvlen]
    simp [column]
  have hsum := maskFilter_sum (column m j) (column g j) hlen2
  have hpos : ∀ x ∈ column m j, 0 < x := by
    rw [hcol]
    intro x hx
    rw [List.eq_of_mem_replicate hx]
    norm_num
  have hiff := maskFilter_sum_pos_iff (column m j)
    ((column g j).map fun x => decide (x = 1)) (by simpa using hlen2) hpos
  rw [hsum, any_eq_decide_spec_hit] at hiff
  have hnn : 0 ≤ spec_loss (column m j) (column g j) := by
    rw [← hsum]
    exact maskFilter_sum_nonneg _ _ fun x hx => le_of_lt (hpos x hx)
  refine ⟨hiff, ?_, ?_⟩
  · intro hf
    rcases lt_or_eq_of_le hnn with hlt | heq
    · rw [hiff.mpr hlt] at hf
      exact absurd hf (by simp)
    · exact heq.symm
  · intro h0
    cases hd : decide (spec_hit (column g j)) with
    | false => rfl
    | true =>
      exfalso
      have hlt := hiff.mp hd
      rw [h0] at hlt
      exact lt_irrefl 0 hlt

/-- C9 witness on replicate 1 of the reference scenario. -/
theorem hit_iff_positive_loss_witness :
    ∃ (loss : ℚ) (hit : Bool),
      sim_result (column testValues (4 / 2 - 1)) ((4 / 2 - 1 : Nat) : Int)
        rep1Grid = some (loss, hit) ∧
      ((hit = true ↔ 0 < loss) ∧ (hit = false ↔ loss = 0)) :=
  ⟨400, true, by decide,
   hit_iff_positive_loss 4 4 (by decide) (by decide) testValues (by decide)
     rep1Grid (by decide) (by decide) 400 true (by decide)⟩

/-- C10: with a nonnegative value map, every per-replicate loss lies between
`0` and the asset column's total value; consequently the mean loss and the
maximum loss do too, and `0 ≤ mean ≤ max ≤ column sum`. -/
theorem loss_bounds (values : Grid) (grids : List Grid) (rows cols : Nat)
    (hrows : 1 ≤ rows) (hcols : 2 ≤ cols)
    (hvl : values.length = rows) (hvr : ∀ row ∈ values, row.length = cols)
    (hnn : ∀ row ∈ values, ∀ x ∈ row, 0 ≤ x)
    (hg : ∀ g ∈ grids, g.length = rows ∧ ∀ row ∈ g, row.length = cols)
    (hne : grids ≠ []) :
    ∃ r : RiskReport, evaluate_losses values grids = some r ∧
      (∀ l ∈ r.losses, 0 ≤ l ∧ l ≤ (column values (cols / 2 - 1)).sum) ∧
      0 ≤ r.avg_loss ∧ r.avg_loss ≤ r.max_loss ∧
      r.max_loss ≤ (column values (cols / 2 - 1)).sum := by
  obtain ⟨g0, gs, rfl⟩ : ∃ g0 gs, grids = g0 :: gs := by
    cases grids with
    | nil => exact absurd rfl hne
    | cons a l => exact ⟨a, l, rfl⟩
  set j := cols / 2 - 1 with hj
  have hpvnn : ∀ x ∈ column values j, 0 ≤ x := by
    intro x hx
    rcases List.mem_map.mp hx with ⟨row, hrow, rfl⟩
    have hjr : j < row.length := by rw [hvr row hrow]; omega
    rw [List.getD_eq_getElem _ _ hjr]
    exact hnn row hrow _ (List.getElem_mem hjr)
  have hb : ∀ g ∈ g0 :: gs, 0 ≤ spec_loss (column values j) (column g j) ∧
      spec_loss (column values j) (column g j) ≤ (column values j).sum := by
    intro g hgm
    have hlen : (column values j).length = (column g j).length := by
      simp [column, hvl, (hg g hgm).1]
    rw [← maskFilter_sum (column values j) (column g j) hlen]
    exact ⟨maskFilter_sum_nonneg _ _ hpvnn, maskFilter_sum_le _ _ hpvnn⟩
  refine ⟨_, evaluate_losses_run values g0 gs rows cols hrows hcols hvl hvr hg,
    ?_, ?_, ?_, ?_⟩
  · dsimp only
    intro l hl
    rcases List.mem_map.mp hl with ⟨g, hgm, rfl⟩
    exact hb g hgm
  · dsimp only
    apply div_nonneg
    · apply List.sum_nonneg
      intro x hx
      rcases List.mem_map.mp hx with ⟨g, hgm, rfl⟩
      exact (hb g hgm).1
    · exact Nat.cast_nonneg _
  · dsimp only
    have hub : ∀ x ∈ (g0 :: gs).map
        fun g => spec_loss (column values j) (column g j),
        x ≤ (gs.map fun g => spec_loss (column values j) (column g j)).foldl max
          (spec_loss (column values j) (column g0 j)) := by
      intro x hx
      rw [List.map_cons] at hx
      rcases List.mem_cons.mp hx with rfl | hx
      · exact foldl_max_init _ _
      · exact le_foldl_max _ _ _ hx
    have hsum := List.sum_le_card_nsmul _ _ hub
    have hlenpos : (0 : ℚ) < (((g0 :: gs).length : Nat) : ℚ) := by
      exact_mod_cast Nat.succ_pos gs.length
    rw [div_le_iff hlenpos]
    calc ((g0 :: gs).map fun g => spec_loss (column values j) (column g j)).sum
        ≤ ((g0 :: gs).map
            fun g => spec_loss (column values j) (column g j)).length •
          ((gs.map fun g => spec_loss (column values j) (column g j)).foldl max
            (spec_loss (column values j) (column g0 j))) := hsum
      _ = _ := by
          rw [List.length_map, nsmul_eq_mul, mul_comm]
  · dsimp only
    have hmem : ((gs.map fun g => spec_loss (column values j) (column g j)).foldl
        max (spec_loss (column values j) (column g0 j))) ∈
        (g0 :: gs).map fun g => spec_loss (column values j) (column g j) := by
      rw [List.map_cons]
      exact foldl_max_mem _ _
    rcases List.mem_map.mp hmem with ⟨g, hgm, heq⟩
    rw [← heq]
    exact (hb g hgm).2

/-- C10 witness on the reference scenario. -/
theorem loss_bounds_witness :
    ∃ r : RiskReport, evaluate_losses testValues [rep1Grid, rep2Grid] = some r ∧
      (∀ l ∈ r.losses, 0 ≤ l ∧ l ≤ (column testValues (4 / 2 - 1)).sum) ∧
      0 ≤ r.avg_loss ∧ r.avg_loss ≤ r.max_loss ∧
      r.max_loss ≤ (column testValues (4 / 2 - 1)).sum :=
  loss_bounds testValues [rep1Grid, rep2Grid] 4 4 (by decide) (by decide)
    (by decide) (by decide) (by decide) (by decide) (by decide)

end PowerlineLoss
